import Mathlib

set_option maxRecDepth 200000

/-!
Verification of the vocabulary highlighter and heading heuristic of the
DW German Learning website generator (`src/websiteGenerator.ts`).

Strings are modelled as `List Char`.  The regex built by `highlightWord`,

  `new RegExp("(^|[^\\p{L}])(" ++ escapedWord ++ ")(?=([^\\p{L}]|$))", "giu")`,

is modelled by a direct scanner (`scanGo`) over the paragraph that mirrors
the JavaScript global-replace semantics: positions are tried left to right,
at each position the alternative `^` (only at index 0) is tried before
`[^\p{L}]`, a successful match consumes the captured separator and the term
and the lookahead is not consumed, and scanning resumes after the match.
The `i`+`u` flags are modelled by simple case folding of each character.
-/

namespace DWLearn

/-- Characters of the regex class `\p{L}` (Unicode letters), restricted to
the repertoire exercised by this repository: ASCII letters, the Latin-1
letters (including the German umlauts and ß; `ª`, `µ`, `º` are letters,
`×` U+00D7 and `÷` U+00F7 are not) and Latin Extended-A/B. -/
def isUniLetter (c : Char) : Bool :=
  (('A' ≤ c && c ≤ 'Z') || ('a' ≤ c && c ≤ 'z')
    || c.toNat == 0xAA || c.toNat == 0xB5 || c.toNat == 0xBA
    || (0xC0 ≤ c.toNat && c.toNat ≤ 0xFF && c.toNat != 0xD7 && c.toNat != 0xF7)
    || (0x100 ≤ c.toNat && c.toNat ≤ 0x24F))

/-- Simple case folding as used by a case-insensitive Unicode regex
(flags `iu`), restricted to Basic Latin and Latin-1: uppercase ASCII and
uppercase Latin-1 letters map to their lowercase forms, everything else
(including `ß`, whose simple folding is itself) is fixed. -/
def foldCase (c : Char) : Char :=
  if 'A' ≤ c && c ≤ 'Z' then Char.ofNat (c.toNat + 32)
  else if 0xC0 ≤ c.toNat && c.toNat ≤ 0xDE && c.toNat != 0xD7 then Char.ofNat (c.toNat + 32)
  else c

/-- Shorthand turning a string literal into the `List Char` it denotes. -/
def str (s : String) : List Char := s.data

/-- One vocabulary item, from `WordExplanation` in `src/types.ts`.
The two fields the highlighter guards with `|| ''` are modelled as
`Option` so that a missing value is representable. -/
structure WordExplanation where
  word : List Char
  definition : List Char
  exampleField : Option (List Char)
  difficulty : List Char
  partOfSpeech : Option (List Char)

/-- `x || ''` on an optional string field. -/
def orEmpty (o : Option (List Char)) : List Char := o.getD []

/-- `raw.replace(/t/g, rep)` for a single-character pattern `t`:
every occurrence of the character is replaced by `rep`. -/
def replaceChar (t : Char) (rep : List Char) : List Char → List Char
  | [] => []
  | c :: s => (if c = t then rep else [c]) ++ replaceChar t rep s

/-- `escapeHtml` from `src/websiteGenerator.ts` lines 45-52: the five
`replace` calls, applied in the source order (`&` first). -/
def escapeHtml (raw : List Char) : List Char :=
  replaceChar '\'' ['&', '#', '3', '9', ';']
    (replaceChar '"' (str "&quot;")
      (replaceChar '>' (str "&gt;")
        (replaceChar '<' (str "&lt;")
          (replaceChar '&' (str "&amp;") raw))))

/-- The example line of the tooltip: `safeExample ? `<br/><span ...>` : ''`
(line 121); an empty escaped example is falsy, so the line is omitted. -/
def exampleSeg (exp : WordExplanation) : List Char :=
  let safeExample := escapeHtml (orEmpty exp.exampleField)
  if safeExample = [] then []
  else str "<br/><span class=\"example\">" ++ safeExample ++ str "</span>"

/-- The tooltip markup built for a match (line 121 of the source), with
`matched` the surface text captured by the second regex group. -/
def tooltipFor (exp : WordExplanation) (matched : List Char) : List Char :=
  let safeWord := escapeHtml matched
  let safeDef := escapeHtml exp.definition
  let safePos := escapeHtml (orEmpty exp.partOfSpeech)
  str "<span class=\"explained-word " ++ exp.difficulty
    ++ str "\"><span class=\"ew-term\">" ++ safeWord
    ++ str "</span><span class=\"tooltip-text\"><strong>" ++ safeWord
    ++ str "</strong><br/><em>" ++ safePos
    ++ str "</em><br/>" ++ safeDef
    ++ exampleSeg exp
    ++ str "</span></span>"

/-- Case-insensitive literal match of the word `w` against a prefix of the
text (both sides simple-case-folded, as under the regex `iu` flags). -/
def ciStarts : List Char → List Char → Bool
  | [], _ => true
  | _ :: _, [] => false
  | a :: w, b :: s => (foldCase a == foldCase b) && ciStarts w s

/-- The lookahead `(?=([^\p{L}]|$))`: the position is at end of text or the
next character is not a Unicode letter. -/
def lookOk : List Char → Bool
  | [] => true
  | c :: _ => !isUniLetter c

/-- One piece of the decomposition of a paragraph produced by the global
replace: either a character the regex did not match, or one match, holding
the captured separator group `p1` (empty or one non-letter) and the matched
surface form `p2`. -/
inductive Chunk where
  | plain : Char → Chunk
  | hit : List Char → List Char → Chunk
deriving DecidableEq, Repr

/-- The scanner behind `result.replace(regex, ...)`: finds the
non-overlapping matches of `(^|[^\p{L}])(w)(?=([^\p{L}]|$))` left to right.
`atStart` records whether the current position is index 0 (where `^` can
match, tried before the `[^\p{L}]` alternative); `fuel` is a structural
bound that is never exhausted when it starts at the text length, since every
recursive step consumes at least one character. -/
def scanGo (w : List Char) : Nat → Bool → List Char → List Chunk
  | _, atStart, [] => if atStart && w.isEmpty then [Chunk.hit [] []] else []
  | 0, _, s => s.map Chunk.plain
  | fuel + 1, atStart, c :: rest =>
    if atStart && ciStarts w (c :: rest) && lookOk ((c :: rest).drop w.length) then
      if w.isEmpty then Chunk.hit [] [] :: Chunk.plain c :: scanGo w fuel false rest
      else Chunk.hit [] ((c :: rest).take w.length)
        :: scanGo w fuel false ((c :: rest).drop w.length)
    else if !isUniLetter c && ciStarts w rest && lookOk (rest.drop w.length) then
      Chunk.hit [c] (rest.take w.length) :: scanGo w fuel false (rest.drop w.length)
    else
      Chunk.plain c :: scanGo w fuel false rest

/-- The match decomposition of a whole paragraph for the word `w`. -/
def splitMatches (w : List Char) (atStart : Bool) (s : List Char) : List Chunk :=
  scanGo w s.length atStart s

/-- How `replace` rebuilds the string: unmatched characters verbatim, each
match replaced by `p1 + tooltip` (the callback on lines 116-123). -/
def renderChunk (exp : WordExplanation) : Chunk → List Char
  | Chunk.plain c => [c]
  | Chunk.hit p1 p2 => p1 ++ tooltipFor exp p2

def renderChunks (exp : WordExplanation) (cs : List Chunk) : List Char :=
  (cs.map (renderChunk exp)).flatten

/-- The source text a chunk list came from. -/
def chunkSource : Chunk → List Char
  | Chunk.plain c => [c]
  | Chunk.hit p1 p2 => p1 ++ p2

def chunksSource (cs : List Chunk) : List Char :=
  (cs.map chunkSource).flatten

/-- One iteration of the loop in `highlightWord`: replace every match of
`exp.word` in the working text by the separator plus the tooltip markup. -/
def replaceTerm (exp : WordExplanation) (p : List Char) : List Char :=
  renderChunks exp (splitMatches exp.word true p)

/-- Stable insertion of `e` into a list sorted by word length descending:
`e` goes after every strictly longer word and before the first word of
length at most `e`'s, which keeps ties in original order. -/
def insertDesc (e : WordExplanation) : List WordExplanation → List WordExplanation
  | [] => [e]
  | x :: t => if x.word.length > e.word.length then x :: insertDesc e t else e :: x :: t

/-- `[...explanations].sort((a, b) => b.word.length - a.word.length)`:
a stable sort by word length, descending (line 111). -/
def sortDesc : List WordExplanation → List WordExplanation
  | [] => []
  | e :: t => insertDesc e (sortDesc t)

/-- `highlightWord` (lines 108-126): sort the explanations by word length
descending, then replace the matches of each word in turn, each pass
working on the output of the previous one. -/
def highlightWord (explanations : List WordExplanation) (paragraph : List Char) : List Char :=
  (sortDesc explanations).foldl (fun res exp => replaceTerm exp res) paragraph

/-! ### The heading heuristic (`isSubheading`, lines 129-139) -/

/-- The regex class `\s` (JavaScript whitespace), restricted to the
whitespace characters this repository's text can contain. -/
def isWs (c : Char) : Bool :=
  c == ' ' || c == '\t' || c == '\n' || c == '\r'
    || c.toNat == 0xB || c.toNat == 0xC || c.toNat == 0xA0
    || c.toNat == 0x2028 || c.toNat == 0x2029 || c.toNat == 0xFEFF

/-- JavaScript `String.length`: the number of UTF-16 code units. -/
def jsLength (s : List Char) : Nat :=
  (s.map (fun c => if c.toNat < 0x10000 then 1 else 2)).sum

/-- `/[.!?]$/.test(text)`: the text ends like a sentence. -/
def endsSentence (s : List Char) : Bool :=
  match s.getLast? with
  | some c => c == '.' || c == '!' || c == '?'
  | none => false

/-- `/^[-*•]/.test(text)`: the text starts with a list-bullet marker. -/
def startsBullet (s : List Char) : Bool :=
  match s with
  | c :: _ => c == '-' || c == '*' || c == '•'
  | [] => false

/-- `/^[A-ZÄÖÜ]/.test(w)`: the token begins with an uppercase letter of the
class the source uses. -/
def startsCap (w : List Char) : Bool :=
  match w with
  | c :: _ => ('A' ≤ c && c ≤ 'Z') || c == 'Ä' || c == 'Ö' || c == 'Ü'
  | [] => false

/-- `text.split(/\s+/).filter(Boolean)`: the maximal whitespace-free runs of
the text (splitting at each whitespace character and dropping the empty
pieces gives exactly the same list). -/
def tokensOf (s : List Char) : List (List Char) :=
  (s.splitOnP isWs).filter (fun w => !w.isEmpty)

/-- `isSubheading` (lines 129-139).  The source compares
`capitalized.length / words.length >= 0.6` in floating point; for token
counts bounded by the guard (at most 12) that comparison coincides exactly
with the rational comparison `3 * words ≤ 5 * capitalized` used here. -/
def isSubheading (text : List Char) : Bool :=
  if jsLength text < 3 || 120 < jsLength text then false
  else if endsSentence text then false
  else if startsBullet text then false
  else
    let words := tokensOf text
    if 0 < words.length && words.length ≤ 12 then
      decide (3 * words.length ≤ 5 * (words.filter startsCap).length)
    else false

/-- JavaScript `String.trim`: strip whitespace from both ends. -/
def trimJs (s : List Char) : List Char :=
  ((s.dropWhile isWs).reverse.dropWhile isWs).reverse

/-- One paragraph of `processedParagraphs` (lines 141-148): empty after
trimming is dropped, a subheading is rendered as an `h3` element with
highlighting applied inside, anything else as a `p` element. -/
def renderParagraph (explanations : List WordExplanation) (p : List Char) : List Char :=
  let trimmed := trimJs p
  if trimmed = [] then []
  else if isSubheading trimmed then
    str "<h3 class=\"article-subheading\">" ++ highlightWord explanations trimmed ++ str "</h3>"
  else
    str "<p>" ++ highlightWord explanations trimmed ++ str "</p>"

/-- The heading conditions in the words of the claim, with the length range
read inclusive-exclusive (`3 ≤ len < 120`) as the claim states it. -/
def specHeadingExcl (text : List Char) : Bool :=
  (decide (3 ≤ jsLength text) && decide (jsLength text < 120))
    && !endsSentence text && !startsBullet text
    && (decide (1 ≤ (tokensOf text).length) && decide ((tokensOf text).length ≤ 12))
    && decide (3 * (tokensOf text).length ≤ 5 * ((tokensOf text).filter startsCap).length)

/-- The heading conditions in the words of the claim, with the length range
inclusive on both ends (`3 ≤ len ≤ 120`), which is what the code tests. -/
def specHeadingIncl (text : List Char) : Bool :=
  (decide (3 ≤ jsLength text) && decide (jsLength text ≤ 120))
    && !endsSentence text && !startsBullet text
    && (decide (1 ≤ (tokensOf text).length) && decide ((tokensOf text).length ≤ 12))
    && decide (3 * (tokensOf text).length ≤ 5 * ((tokensOf text).filter startsCap).length)

/-! ### Regex-metacharacter escaping (line 113) -/

/-- The character class `[.*+?^$\x7b\x7d()|[\]\\]` of the escaping replace:
the regex metacharacters. -/
def isRegexMeta (c : Char) : Bool :=
  c == '.' || c == '*' || c == '+' || c == '?' || c == '^' || c == '$'
    || c == '\x7b' || c == '\x7d' || c == '(' || c == ')' || c == '|'
    || c == '[' || c == ']' || c == '\\'

/-- `exp.word.replace(/[.*+?^$\x7b\x7d()|[\]\\]/g, "\\$&")` (line 113):
prefix every metacharacter with a backslash. -/
def escapeRegExp : List Char → List Char
  | [] => []
  | c :: t => (if isRegexMeta c then ['\\', c] else [c]) ++ escapeRegExp t

/-- Modelled from the spec: the pattern compiler consumes the escaped word
that is spliced into the regex source.  A backslash makes the following
character literal; a bare metacharacter is not a literal (it would change
the pattern's meaning), so compilation of the word as a literal fails on
it.  Returns the literal character sequence the pattern matches. -/
def interpretEscaped : List Char → Option (List Char)
  | [] => some []
  | c :: t =>
    if c = '\\' then
      match t with
      | [] => none
      | d :: t2 => (interpretEscaped t2).map (fun l => d :: l)
    else if isRegexMeta c then none
    else (interpretEscaped t).map (fun l => c :: l)

/-! ### Predicates and data used by the claim statements -/

/-- Every match in a chunk list is sound for the word `w`: its surface form
equals `w` up to simple case folding, its captured separator is empty (only
possible at the start of the text) or a single non-letter, and the text
following the match is empty or starts with a non-letter. -/
def chunkHitsOK (w : List Char) : List Chunk → Prop
  | [] => True
  | Chunk.plain _ :: t => chunkHitsOK w t
  | Chunk.hit p1 p2 :: t =>
      p2.map foldCase = w.map foldCase
        ∧ (p1 = [] ∨ ∃ c, p1 = [c] ∧ isUniLetter c = false)
        ∧ lookOk (chunksSource t) = true
        ∧ chunkHitsOK w t

/-- The explanation list is ordered by word length, descending. -/
def sortedDescLen : List WordExplanation → Prop
  | [] => True
  | [_] => True
  | a :: b :: t => b.word.length ≤ a.word.length ∧ sortedDescLen (b :: t)

/-- No character of the list is a raw markup character (`<`, `>`, `"`, or
the single quote). -/
def rawFree (l : List Char) : Bool :=
  l.all (fun c => !(c == '<' || c == '>' || c == '"' || c == '\''))

/-- Boolean prefix test on character lists. -/
def startsWithL : List Char → List Char → Bool
  | [], _ => true
  | _ :: _, [] => false
  | a :: p, b :: s => a == b && startsWithL p s

/-- The text continues with the body of one of the five entities
`escapeHtml` produces. -/
def entityHead (t : List Char) : Bool :=
  startsWithL (str "amp;") t || startsWithL (str "lt;") t || startsWithL (str "gt;") t
    || startsWithL (str "quot;") t || startsWithL ['#', '3', '9', ';'] t

/-- Every ampersand in the list starts one of the five HTML entities. -/
def ampOK : List Char → Bool
  | [] => true
  | c :: t => (if c == '&' then entityHead t else true) && ampOK t

/-- What `escapeHtml` emits for one input character (the five replaced
characters become their entities, anything else is kept). -/
def escapeCharDef (c : Char) : List Char :=
  if c = '&' then ['&', 'a', 'm', 'p', ';']
  else if c = '<' then ['&', 'l', 't', ';']
  else if c = '>' then ['&', 'g', 't', ';']
  else if c = '"' then ['&', 'q', 'u', 'o', 't', ';']
  else if c = '\'' then ['&', '#', '3', '9', ';']
  else [c]

/-- Number of `<` characters, counting the inserted markup tags. -/
def countLt (s : List Char) : Nat :=
  (s.filter (fun c => c == '<')).length

/-- The tooltip markup with the example line omitted entirely (no trailing
break, no example span), as the spec describes it for an empty example. -/
def tooltipNoExample (exp : WordExplanation) (matched : List Char) : List Char :=
  let safeWord := escapeHtml matched
  let safeDef := escapeHtml exp.definition
  let safePos := escapeHtml (orEmpty exp.partOfSpeech)
  str "<span class=\"explained-word " ++ exp.difficulty
    ++ str "\"><span class=\"ew-term\">" ++ safeWord
    ++ str "</span><span class=\"tooltip-text\"><strong>" ++ safeWord
    ++ str "</strong><br/><em>" ++ safePos
    ++ str "</em><br/>" ++ safeDef
    ++ str "</span></span>"

/-- Concrete vocabulary items used by the example-based claims. -/
def bahnExp : WordExplanation :=
  { word := str "Bahn", definition := str "Zug", exampleField := none,
    difficulty := str "beginner", partOfSpeech := some (str "Substantiv") }

def fuerExp : WordExplanation :=
  { word := str "für", definition := str "zu etwas", exampleField := none,
    difficulty := str "beginner", partOfSpeech := some (str "Präposition") }

def laufenExp : WordExplanation :=
  { word := str "laufen", definition := str "gehen", exampleField := none,
    difficulty := str "beginner", partOfSpeech := some (str "Verb") }

def inExp : WordExplanation :=
  { word := str "in", definition := str "innerhalb", exampleField := none,
    difficulty := str "beginner", partOfSpeech := some (str "Präposition") }

def intlExp : WordExplanation :=
  { word := str "international", definition := str "weltweit", exampleField := none,
    difficulty := str "advanced", partOfSpeech := some (str "Adjektiv") }

/-- A trimmed paragraph of exactly 120 UTF-16 units: one capitalized token,
no terminal punctuation, no bullet. -/
def s120 : List Char := 'A' :: List.replicate 119 'a'

/-! ### Lemmas about the match decomposition -/

@[simp]
theorem chunksSource_nil : chunksSource [] = [] := rfl

@[simp]
theorem chunksSource_cons (ch : Chunk) (cs : List Chunk) :
    chunksSource (ch :: cs) = chunkSource ch ++ chunksSource cs := rfl

@[simp]
theorem renderChunks_nil (exp : WordExplanation) : renderChunks exp [] = [] := rfl

@[simp]
theorem renderChunks_cons (exp : WordExplanation) (ch : Chunk) (cs : List Chunk) :
    renderChunks exp (ch :: cs) = renderChunk exp ch ++ renderChunks exp cs := rfl

theorem chunksSource_map_plain (s : List Char) :
    chunksSource (s.map Chunk.plain) = s := by
  induction s with
  | nil => rfl
  | cons c t ih => simp [chunkSource, ih]

/-- The decomposition computed by the scanner reassembles to the exact
input text, for every fuel value. -/
theorem chunksSource_scanGo (w : List Char) :
    ∀ (fuel : Nat) (b : Bool) (s : List Char), chunksSource (scanGo w fuel b s) = s := by
  intro fuel
  induction fuel with
  | zero =>
    intro b s
    cases s with
    | nil =>
      by_cases h : (b && w.isEmpty) = true
      · simp [scanGo, h, chunkSource]
      · simp [scanGo, h]
    | cons c t => simpa [scanGo] using chunksSource_map_plain (c :: t)
  | succ n ih =>
    intro b s
    cases s with
    | nil =>
      by_cases h : (b && w.isEmpty) = true
      · simp [scanGo, h, chunkSource]
      · simp [scanGo, h]
    | cons c t =>
      rw [scanGo]
      split_ifs with h1 h2 h3
      · simp [chunkSource, ih]
      · simp [chunkSource, ih, List.take_append_drop]
      · simp [chunkSource, ih, List.take_append_drop]
      · simp [chunkSource, ih]

theorem map_foldCase_take_of_ciStarts :
    ∀ (w s : List Char), ciStarts w s = true →
      (s.take w.length).map foldCase = w.map foldCase := by
  intro w
  induction w with
  | nil => intro s _; simp
  | cons a w' ih =>
    intro s h
    cases s with
    | nil => simp [ciStarts] at h
    | cons b s' =>
      simp only [ciStarts, Bool.and_eq_true, beq_iff_eq] at h
      simp [List.take, h.1, ih s' h.2]

theorem ciStarts_append_of_foldEq :
    ∀ (w o r : List Char), o.map foldCase = w.map foldCase →
      ciStarts w (o ++ r) = true := by
  intro w
  induction w with
  | nil => intro o r _; simp [ciStarts]
  | cons a w' ih =>
    intro o r h
    cases o with
    | nil => simp at h
    | cons b o' =>
      simp only [List.map, List.cons.injEq] at h
      simp [ciStarts, h.1, ih o' r h.2]

theorem length_eq_of_foldEq {o w : List Char}
    (h : o.map foldCase = w.map foldCase) : o.length = w.length := by
  have := congrArg List.length h
  simpa using this

theorem chunkHitsOK_map_plain (w : List Char) (s : List Char) :
    chunkHitsOK w (s.map Chunk.plain) := by
  induction s with
  | nil => trivial
  | cons c t ih => exact ih

/-- Every match the scanner emits is sound: surface form equal to the word
up to case folding, separator empty or a single non-letter, following text
empty or starting with a non-letter. -/
theorem chunkHitsOK_scanGo (w : List Char) :
    ∀ (fuel : Nat) (b : Bool) (s : List Char), chunkHitsOK w (scanGo w fuel b s) := by
  intro fuel
  induction fuel with
  | zero =>
    intro b s
    cases s with
    | nil =>
      by_cases h : (b && w.isEmpty) = true
      · have h' := (Bool.and_eq_true _ _).mp h
        have hw : w = [] := List.isEmpty_iff.mp h'.2
        simp [scanGo, h'.1, hw, chunkHitsOK, lookOk]
      · simp [scanGo, h, chunkHitsOK]
    | cons c t =>
      simpa [scanGo] using chunkHitsOK_map_plain w (c :: t)
  | succ n ih =>
    intro b s
    cases s with
    | nil =>
      by_cases h : (b && w.isEmpty) = true
      · have h' := (Bool.and_eq_true _ _).mp h
        have hw : w = [] := List.isEmpty_iff.mp h'.2
        simp [scanGo, h'.1, hw, chunkHitsOK, lookOk]
      · simp [scanGo, h, chunkHitsOK]
    | cons c t =>
      rw [scanGo]
      split_ifs with h1 h2 h3
      · -- `^` alternative, empty word
        have hw : w = [] := List.isEmpty_iff.mp h2
        have h1' := (Bool.and_eq_true _ _).mp ((Bool.and_eq_true _ _).mp h1).1
        have hlook : lookOk ((c :: t).drop w.length) = true :=
          ((Bool.and_eq_true _ _).mp h1).2
        refine ⟨by simp [hw], Or.inl rfl, ?_, ?_⟩
        · simpa [chunkSource, chunksSource_scanGo, hw] using hlook
        · exact ih false t
      · -- `^` alternative, nonempty word
        have h1' := (Bool.and_eq_true _ _).mp h1
        have hci : ciStarts w (c :: t) = true :=
          ((Bool.and_eq_true _ _).mp h1'.1).2
        refine ⟨map_foldCase_take_of_ciStarts w (c :: t) hci, Or.inl rfl, ?_, ?_⟩
        · simpa [chunksSource_scanGo] using h1'.2
        · exact ih false _
      · -- `[^\p{L}]` alternative
        have h3' := (Bool.and_eq_true _ _).mp h3
        have h3'' := (Bool.and_eq_true _ _).mp h3'.1
        have hc : isUniLetter c = false := by
          have := h3''.1
          simpa using this
        refine ⟨map_foldCase_take_of_ciStarts w t h3''.2, Or.inr ⟨c, rfl, hc⟩, ?_, ?_⟩
        · simpa [chunksSource_scanGo] using h3'.2
        · exact ih false _
      · exact ih false t

/-- The scanner's result does not depend on the fuel once the fuel is at
least the text length. -/
theorem scanGo_fuel (w : List Char) :
    ∀ (f1 f2 : Nat) (b : Bool) (s : List Char),
      s.length ≤ f1 → s.length ≤ f2 → scanGo w f1 b s = scanGo w f2 b s := by
  intro f1
  induction f1 with
  | zero =>
    intro f2 b s h1 _
    have : s = [] := List.eq_nil_of_length_eq_zero (Nat.le_zero.mp h1)
    subst this
    cases f2 <;> rfl
  | succ g1 ih =>
    intro f2 b s h1 h2
    cases s with
    | nil => cases f2 <;> rfl
    | cons c t =>
      cases f2 with
      | zero => simp at h2
      | succ g2 =>
        rw [scanGo, scanGo]
        simp only [List.length_cons] at h1 h2
        split_ifs with hA hB
        · have := ih g2 false t (Nat.le_of_succ_le_succ h1) (Nat.le_of_succ_le_succ h2)
          rw [this]
        · have hw : w ≠ [] := fun hw => by simp [hw] at hB
          have hwlen : 1 ≤ w.length := by
            cases w with
            | nil => exact absurd rfl hw
            | cons _ _ => simp
          have hlen : ((c :: t).drop w.length).length ≤ g1 := by
            simp only [List.length_drop, List.length_cons]
            omega
          have hlen2 : ((c :: t).drop w.length).length ≤ g2 := by
            simp only [List.length_drop, List.length_cons]
            omega
          rw [ih g2 false _ hlen hlen2]
        · have hlen : (t.drop w.length).length ≤ g1 := by
            simp only [List.length_drop]
            omega
          have hlen2 : (t.drop w.length).length ≤ g2 := by
            simp only [List.length_drop]
            omega
          rw [ih g2 false _ hlen hlen2]
        · rw [ih g2 false t (Nat.le_of_succ_le_succ h1) (Nat.le_of_succ_le_succ h2)]

/-! ### Lemmas about the sort and the fold -/

theorem sortedDescLen_insertDesc (e : WordExplanation) :
    ∀ l, sortedDescLen l → sortedDescLen (insertDesc e l) := by
  intro l
  induction l with
  | nil => intro _; trivial
  | cons x t ih =>
    intro hs
    rw [insertDesc]
    split_ifs with h
    · cases t with
      | nil =>
        exact ⟨Nat.le_of_lt h, trivial⟩
      | cons y u =>
        have hs1 : y.word.length ≤ x.word.length := hs.1
        have ih' := ih hs.2
        rw [insertDesc] at ih' ⊢
        split_ifs at ih' ⊢ with h2
        · exact ⟨hs1, ih'⟩
        · exact ⟨Nat.le_of_lt h, ih'⟩
    · exact ⟨Nat.le_of_not_lt h, hs⟩

theorem sortedDescLen_sortDesc : ∀ l, sortedDescLen (sortDesc l) := by
  intro l
  induction l with
  | nil => trivial
  | cons e t ih => exact sortedDescLen_insertDesc e (sortDesc t) ih

theorem mem_insertDesc {x e : WordExplanation} :
    ∀ l, x ∈ insertDesc e l → x = e ∨ x ∈ l := by
  intro l
  induction l with
  | nil => intro h; simp [insertDesc] at h; exact Or.inl h
  | cons y t ih =>
    intro h
    rw [insertDesc] at h
    split_ifs at h with hc
    · rcases List.mem_cons.mp h with h | h
      · exact Or.inr (List.mem_cons.mpr (Or.inl h))
      · rcases ih h with h | h
        · exact Or.inl h
        · exact Or.inr (List.mem_cons.mpr (Or.inr h))
    · rcases List.mem_cons.mp h with h | h
      · exact Or.inl h
      · exact Or.inr h

theorem mem_sortDesc {x : WordExplanation} :
    ∀ l, x ∈ sortDesc l → x ∈ l := by
  intro l
  induction l with
  | nil => intro h; simp [sortDesc] at h
  | cons e t ih =>
    intro h
    rw [sortDesc] at h
    rcases mem_insertDesc (sortDesc t) h with h | h
    · simp [h]
    · exact List.mem_cons.mpr (Or.inr (ih h))

theorem replaceTerm_nil_of_word_ne_nil (exp : WordExplanation)
    (hw : exp.word ≠ []) : replaceTerm exp [] = [] := by
  have : exp.word.isEmpty = false := by
    cases hwd : exp.word with
    | nil => exact absurd hwd hw
    | cons _ _ => rfl
  simp [replaceTerm, splitMatches, scanGo, this]

theorem foldl_replaceTerm_nil :
    ∀ (l : List WordExplanation), (∀ e ∈ l, e.word ≠ []) →
      l.foldl (fun res exp => replaceTerm exp res) [] = [] := by
  intro l
  induction l with
  | nil => intro _; rfl
  | cons e t ih =>
    intro h
    have he : e.word ≠ [] := h e (List.mem_cons_self e t)
    have ht : ∀ x ∈ t, x.word ≠ [] := fun x hx => h x (List.mem_cons.mpr (Or.inr hx))
    simp [List.foldl_cons, replaceTerm_nil_of_word_ne_nil e he, ih ht]

/-! ### Lemmas about the HTML escaping -/

theorem replaceChar_append (t : Char) (rep : List Char) :
    ∀ (a b : List Char), replaceChar t rep (a ++ b) = replaceChar t rep a ++ replaceChar t rep b := by
  intro a b
  induction a with
  | nil => rfl
  | cons c s ih => simp [replaceChar, ih]

theorem escapeHtml_append (a b : List Char) :
    escapeHtml (a ++ b) = escapeHtml a ++ escapeHtml b := by
  simp [escapeHtml, replaceChar_append]

theorem escapeHtml_singleton (c : Char) : escapeHtml [c] = escapeCharDef c := by
  by_cases h1 : c = '&'
  · subst h1; rfl
  · by_cases h2 : c = '<'
    · subst h2; rfl
    · by_cases h3 : c = '>'
      · subst h3; rfl
      · by_cases h4 : c = '"'
        · subst h4; rfl
        · by_cases h5 : c = '\''
          · subst h5; rfl
          · simp [escapeHtml, replaceChar, escapeCharDef, h1, h2, h3, h4, h5]

theorem escapeHtml_cons (c : Char) (s : List Char) :
    escapeHtml (c :: s) = escapeCharDef c ++ escapeHtml s := by
  have h : (c :: s) = [c] ++ s := rfl
  rw [h, escapeHtml_append, escapeHtml_singleton]

theorem rawFree_escapeCharDef (c : Char) : rawFree (escapeCharDef c) = true := by
  by_cases h1 : c = '&'
  · subst h1; rfl
  · by_cases h2 : c = '<'
    · subst h2; rfl
    · by_cases h3 : c = '>'
      · subst h3; rfl
      · by_cases h4 : c = '"'
        · subst h4; rfl
        · by_cases h5 : c = '\''
          · subst h5; rfl
          · simp [escapeCharDef, rawFree, h1, h2, h3, h4, h5]

theorem rawFree_append (a b : List Char) :
    rawFree (a ++ b) = (rawFree a && rawFree b) := by
  simp [rawFree, List.all_append]

theorem rawFree_escapeHtml (s : List Char) : rawFree (escapeHtml s) = true := by
  induction s with
  | nil => rfl
  | cons c t ih =>
    rw [escapeHtml_cons, rawFree_append, rawFree_escapeCharDef c, ih]
    rfl

theorem ampOK_escapeCharDef_append (c : Char) (r : List Char)
    (h : ampOK r = true) : ampOK (escapeCharDef c ++ r) = true := by
  by_cases h1 : c = '&'
  · subst h1; exact h
  · by_cases h2 : c = '<'
    · subst h2; exact h
    · by_cases h3 : c = '>'
      · subst h3; exact h
      · by_cases h4 : c = '"'
        · subst h4; exact h
        · by_cases h5 : c = '\''
          · subst h5; exact h
          · have hc : (c == '&') = false := by
              simpa using h1
            simp [escapeCharDef, h1, h2, h3, h4, h5, ampOK, hc, h]

theorem ampOK_escapeHtml (s : List Char) : ampOK (escapeHtml s) = true := by
  induction s with
  | nil => rfl
  | cons c t ih => rw [escapeHtml_cons]; exact ampOK_escapeCharDef_append c _ ih

/-! ### The escaped word compiles to the literal term -/

theorem interpretEscaped_escapeRegExp : ∀ (w : List Char),
    interpretEscaped (escapeRegExp w) = some w := by
  intro w
  induction w with
  | nil => rfl
  | cons c t ih =>
    by_cases h : isRegexMeta c = true
    · simp [escapeRegExp, h, interpretEscaped, ih]
    · have hc : c ≠ '\\' := by
        intro hcc
        subst hcc
        simp [isRegexMeta] at h
      simp only [escapeRegExp, if_neg h, List.singleton_append]
      rw [interpretEscaped.eq_def]
      simp only [if_neg hc, if_neg h, ih]
      rfl

/-! ### The heading heuristic agrees with its condition list -/

theorem isSubheading_eq_specHeadingIncl : ∀ (s : List Char),
    isSubheading s = specHeadingIncl s := by
  intro s
  by_cases hLo : jsLength s < 3
  · have h2 : ¬ (3 ≤ jsLength s) := by omega
    simp [isSubheading, specHeadingIncl, hLo, h2]
  · by_cases hHi : 120 < jsLength s
    · have h2 : ¬ (jsLength s ≤ 120) := by omega
      simp [isSubheading, specHeadingIncl, hLo, hHi, h2]
    · have hLo' : 3 ≤ jsLength s := by omega
      have hHi' : jsLength s ≤ 120 := by omega
      by_cases hE : endsSentence s = true
      · simp [isSubheading, specHeadingIncl, hLo, hHi, hE]
      · have hE' : endsSentence s = false := by
          cases hv : endsSentence s
          · rfl
          · exact absurd hv hE
        by_cases hB : startsBullet s = true
        · simp [isSubheading, specHeadingIncl, hLo, hHi, hE', hB]
        · have hB' : startsBullet s = false := by
            cases hv : startsBullet s
            · rfl
            · exact absurd hv hB
          by_cases hT1 : 0 < (tokensOf s).length
          · have hT1' : 1 ≤ (tokensOf s).length := by omega
            by_cases hT2 : (tokensOf s).length ≤ 12
            · simp [isSubheading, specHeadingIncl, hLo, hHi, hLo', hHi', hE', hB', hT1, hT1', hT2]
            · simp [isSubheading, specHeadingIncl, hLo, hHi, hLo', hHi', hE', hB', hT1, hT2]
          · have hT1' : ¬ (1 ≤ (tokensOf s).length) := by omega
            simp [isSubheading, specHeadingIncl, hLo, hHi, hLo', hHi', hE', hB', hT1, hT1']

/-! ### Claim theorems -/

/-- Claim C1, counterexample: matching is not case-sensitive.  For the term
`laufen`, the occurrence `Laufen` — differing only in case — is wrapped:
the highlighter turns the paragraph `Laufen` into a full tooltip span
instead of leaving it unchanged. -/
theorem c1_lowercase_term_wraps_other_case :
    highlightWord [laufenExp] (str "Laufen") = tooltipFor laufenExp (str "Laufen")
      ∧ highlightWord [laufenExp] (str "Laufen") ≠ str "Laufen" := by
  constructor
  · decide
  · decide

/-- Claim C1 (amended): matching is case-insensitive (the regex is built
with the `i` and `u` flags).  The highlighter wraps an occurrence exactly
when it equals the term's surface form up to simple case folding at a word
boundary; the wrapped span keeps the occurrence's own surface form.  An
occurrence at the start of the text whose folded form equals the folded
term and that is followed by a non-letter or end of text is wrapped. -/
theorem c1_matching_case_insensitive (exp : WordExplanation) (o rest : List Char)
    (hw : exp.word ≠ [])
    (ho : o.map foldCase = exp.word.map foldCase)
    (hrest : lookOk rest = true) :
    replaceTerm exp (o ++ rest) =
      tooltipFor exp o ++ renderChunks exp (splitMatches exp.word false rest) := by
  have hlen : o.length = exp.word.length := length_eq_of_foldEq ho
  cases o with
  | nil =>
    exfalso
    exact hw (List.eq_nil_of_length_eq_zero hlen.symm)
  | cons b o' =>
    unfold replaceTerm splitMatches
    simp only [List.cons_append, List.length_cons]
    rw [scanGo]
    have hci : ciStarts exp.word (b :: (o' ++ rest)) = true := by
      have h := ciStarts_append_of_foldEq exp.word (b :: o') rest ho
      simpa using h
    have hdrop : (b :: (o' ++ rest)).drop exp.word.length = rest := by
      have he : (b :: o') ++ rest = b :: (o' ++ rest) := rfl
      rw [← he, ← hlen]
      exact List.drop_left (b :: o') rest
    have htake : (b :: (o' ++ rest)).take exp.word.length = b :: o' := by
      have he : (b :: o') ++ rest = b :: (o' ++ rest) := rfl
      rw [← he, ← hlen]
      exact List.take_left (b :: o') rest
    have hcond : (true && ciStarts exp.word (b :: (o' ++ rest))
        && lookOk ((b :: (o' ++ rest)).drop exp.word.length)) = true := by
      rw [hdrop]
      simp [hci, hrest]
    rw [if_pos hcond]
    have hwE : ¬ (exp.word.isEmpty = true) := by
      simp [List.isEmpty_iff, hw]
    rw [if_neg hwE, htake, hdrop, renderChunks_cons]
    have hfuel : scanGo exp.word (o' ++ rest).length false rest
        = scanGo exp.word rest.length false rest := by
      apply scanGo_fuel
      · simp
      · exact Nat.le_refl _
    rw [hfuel]
    simp [renderChunk]

/-- Claim C1 witness: the amended theorem applied to term `laufen` and
occurrence `Laufen` followed by a space. -/
theorem c1_matching_case_insensitive_witness :
    replaceTerm laufenExp (str "Laufen" ++ str " gut")
      = tooltipFor laufenExp (str "Laufen")
        ++ renderChunks laufenExp (splitMatches laufenExp.word false (str " gut")) :=
  c1_matching_case_insensitive laufenExp (str "Laufen") (str " gut")
    (by decide) (by decide) (by decide)

/-- Claim C2, counterexample: re-highlighting is not idempotent.  With the
same single-term list, applying the highlighter to its own output changes
the output again: the term re-matches inside the markup inserted by the
first application (the adjacent tag characters `>` and `<` are non-letters,
so the boundary condition holds there). -/
theorem c2_rehighlight_changes_spans :
    highlightWord [bahnExp] (highlightWord [bahnExp] (str "Die Bahn kommt"))
      ≠ highlightWord [bahnExp] (str "Die Bahn kommt") := by
  decide

/-- Claim C2 (amended): a second application of the highlighter with the
same term list re-matches the term inside the previously inserted markup
and alters the annotation spans, inserting two further tooltip spans (one
inside the `ew-term` span, one inside the `strong` element): the number of
`<` markup characters grows by exactly two tooltips' worth (24). -/
theorem c2_rehighlight_inserts_nested_markup :
    countLt (highlightWord [bahnExp] (highlightWord [bahnExp] (str "Die Bahn kommt")))
      = countLt (highlightWord [bahnExp] (str "Die Bahn kommt")) + 24 := by
  decide

/-- Claim C3: Unicode word-boundary correctness.  Every match the scanner
produces has a surface form equal to the term up to case folding, is
preceded by nothing or a single non-letter, and is followed by end of text
or a non-letter (`chunkHitsOK`); and on the spec's examples only the
standalone `Bahn` and `für` are wrapped — `Bahnhof` and `dafür` are
untouched. -/
theorem c3_word_boundary_correctness :
    (∀ (exp : WordExplanation) (b : Bool) (p : List Char),
        chunkHitsOK exp.word (splitMatches exp.word b p))
      ∧ highlightWord [bahnExp] (str "Die Bahnhof ist groß. Die Bahn kommt.")
          = str "Die Bahnhof ist groß. Die " ++ tooltipFor bahnExp (str "Bahn") ++ str " kommt."
      ∧ highlightWord [fuerExp] (str "dafür und für dich")
          = str "dafür und " ++ tooltipFor fuerExp (str "für") ++ str " dich" := by
  refine ⟨fun exp b p => chunkHitsOK_scanGo exp.word p.length b p, ?_, ?_⟩
  · decide
  · decide

/-- Claim C4: longest-match precedence.  The sort really orders terms by
length, descending; on the spec's example only `international` is wrapped,
and a further pass with the term `in` over that output changes nothing
(`in` produces no separate match inside or outside the wrapped term). -/
theorem c4_longest_match_precedence :
    (∀ ts : List WordExplanation, sortedDescLen (sortDesc ts))
      ∧ highlightWord [inExp, intlExp] (str "international news")
          = tooltipFor intlExp (str "international") ++ str " news"
      ∧ replaceTerm inExp (tooltipFor intlExp (str "international") ++ str " news")
          = tooltipFor intlExp (str "international") ++ str " news" := by
  refine ⟨sortedDescLen_sortDesc, ?_, ?_⟩
  · decide
  · decide

/-- Claim C5, counterexample: the length range is inclusive on both ends,
not inclusive-exclusive.  A trimmed paragraph of exactly 120 characters
(one capitalized token) is classified as a subheading by the code and is
rendered as an `h3` element, while the claim's conditions (length < 120)
reject it. -/
theorem c5_length_120_accepted :
    isSubheading s120 = true ∧ specHeadingExcl s120 = false
      ∧ renderParagraph [] s120
          = str "<h3 class=\"article-subheading\">" ++ s120 ++ str "</h3>" := by
  refine ⟨?_, ?_, ?_⟩
  · decide
  · decide
  · decide

/-- Claim C5 (amended): a trimmed paragraph is classified as a heading if
and only if its UTF-16 length is between 3 and 120 inclusive on both ends,
it does not end in `.`, `!` or `?`, it does not begin with `-`, `*` or `•`,
and splitting on whitespace yields between 1 and 12 tokens of which at
least 60% begin with an uppercase letter (A-Z, Ä, Ö, Ü); in particular
`Die Lage in Europa` is a heading and `Die Lage ist heute kompliziert.`
is not. -/
theorem c5_heading_iff_inclusive_bounds :
    (∀ s : List Char, isSubheading s = specHeadingIncl s)
      ∧ isSubheading (str "Die Lage in Europa") = true
      ∧ isSubheading (str "Die Lage ist heute kompliziert.") = false := by
  refine ⟨isSubheading_eq_specHeadingIncl, ?_, ?_⟩
  · decide
  · decide

/-- Claim C6: empty-safety.  Highlighting the empty paragraph with any term
list whose terms are non-empty yields the empty string, and highlighting
any paragraph with the empty term list returns it unchanged. -/
theorem c6_empty_safety :
    (∀ ts : List WordExplanation, (∀ e ∈ ts, e.word ≠ []) → highlightWord ts [] = [])
      ∧ (∀ p : List Char, highlightWord [] p = p) := by
  constructor
  · intro ts h
    unfold highlightWord
    exact foldl_replaceTerm_nil (sortDesc ts) (fun e he => h e (mem_sortDesc ts he))
  · intro p
    rfl

/-- Claim C6 witness: the empty paragraph with a concrete one-term list. -/
theorem c6_empty_safety_witness : highlightWord [bahnExp] [] = [] :=
  c6_empty_safety.1 [bahnExp] (by
    intro e he
    have h : e = bahnExp := by simpa using he
    subst h
    decide)

/-- Claim C7: tooltip escaping.  `escapeHtml` output never contains a raw
`<`, `>`, `"` or `'`, and every `&` in it starts one of the five entities
`&amp;`, `&lt;`, `&gt;`, `&quot;`, `&#39;`; the example line of the tooltip
is either absent or carries the escaped example. -/
theorem c7_tooltip_escaping :
    (∀ s : List Char, rawFree (escapeHtml s) = true ∧ ampOK (escapeHtml s) = true)
      ∧ (∀ exp : WordExplanation,
          exampleSeg exp = []
            ∨ exampleSeg exp = str "<br/><span class=\"example\">"
                ++ escapeHtml (orEmpty exp.exampleField) ++ str "</span>") := by
  constructor
  · intro s
    exact ⟨rawFree_escapeHtml s, ampOK_escapeHtml s⟩
  · intro exp
    by_cases h : escapeHtml (orEmpty exp.exampleField) = []
    · exact Or.inl (by simp [exampleSeg, h])
    · exact Or.inr (by simp [exampleSeg, h])

/-- Claim C8: totality.  The escaped surface form always compiles as a
pattern, and it denotes exactly the literal term (so no term is ever
skipped for a compilation failure); the highlighter itself is a total
function returning a result for every paragraph and term list. -/
theorem c8_totality_escaped_pattern :
    (∀ w : List Char, interpretEscaped (escapeRegExp w) = some w)
      ∧ (∀ (ts : List WordExplanation) (p : List Char), ∃ r, highlightWord ts p = r) :=
  ⟨interpretEscaped_escapeRegExp, fun ts p => ⟨highlightWord ts p, rfl⟩⟩

/-- Claim C9: optional-field degradation.  An absent or empty example field
removes the example line of the tooltip entirely (no trailing break, no
example span), and an absent part of speech produces the same tooltip as an
empty one (an empty `em` line); in both cases the tooltip is still built,
nothing fails. -/
theorem c9_optional_field_degradation :
    ∀ (exp : WordExplanation) (m : List Char),
      ((exp.exampleField = none ∨ exp.exampleField = some []) →
          tooltipFor exp m = tooltipNoExample exp m)
        ∧ (exp.partOfSpeech = none →
            tooltipFor exp m = tooltipFor { exp with partOfSpeech := some [] } m) := by
  intro exp m
  constructor
  · intro h
    have hseg : exampleSeg exp = [] := by
      have h0 : escapeHtml ([] : List Char) = [] := rfl
      rcases h with h | h <;> simp [exampleSeg, orEmpty, h, h0]
    simp [tooltipFor, tooltipNoExample, hseg]
  · intro h
    simp [tooltipFor, orEmpty, h, exampleSeg]

/-- Claim C9 witness: a term with no example field. -/
theorem c9_optional_field_degradation_witness :
    tooltipFor laufenExp (str "Laufen") = tooltipNoExample laufenExp (str "Laufen") :=
  (c9_optional_field_degradation laufenExp (str "Laufen")).1 (Or.inl rfl)

/-- Claim C10: source-text preservation.  The scanner's decomposition of
the paragraph reassembles to the paragraph itself (so every character not
part of a match is emitted verbatim, in order, and the separator before a
match is re-emitted); each match renders as that separator followed by the
tooltip, whose visible term text is the HTML-escaped matched surface form
(`escapeHtml m`), not the canonical term string. -/
theorem c10_source_text_preservation :
    ∀ (exp : WordExplanation) (p : List Char),
      chunksSource (splitMatches exp.word true p) = p
        ∧ replaceTerm exp p = renderChunks exp (splitMatches exp.word true p)
        ∧ (∀ (p1 m : List Char), renderChunk exp (Chunk.hit p1 m) = p1 ++ tooltipFor exp m)
        ∧ (∀ m : List Char,
            tooltipFor exp m
              = str "<span class=\"explained-word " ++ exp.difficulty
                ++ str "\"><span class=\"ew-term\">" ++ escapeHtml m
                ++ str "</span><span class=\"tooltip-text\"><strong>" ++ escapeHtml m
                ++ str "</strong><br/><em>" ++ escapeHtml (orEmpty exp.partOfSpeech)
                ++ str "</em><br/>" ++ escapeHtml exp.definition
                ++ exampleSeg exp ++ str "</span></span>") := by
  intro exp p
  exact ⟨chunksSource_scanGo exp.word p.length true p, rfl, fun p1 m => rfl, fun m => rfl⟩

end DWLearn
